import Mathlib

set_option maxHeartbeats 1000000

/-!
Verification of the grid-areas Tailwind CSS plugin (src/index.ts).

Strings are modelled as lists of characters (`Str`).  Every definition in
the first part of the file is a direct shallow embedding of a function of
the source file; definitions whose doc comment starts with "Modelled from
the spec" follow the specification's words instead, for comparison.
-/

abbrev Str : Type := List Char

def str (s : String) : Str := s.toList

/-- JavaScript whitespace: the characters recognised by `String.prototype.trim`
and by the regex class used in `row.trim().split(/\s+/)`. -/
def isJsWs (c : Char) : Bool :=
  c == ' ' || c == '\t' || c == '\n' || c == '\r' ||
  c.toNat == 11 || c.toNat == 12 || c.toNat == 0xa0 || c.toNat == 0x1680 ||
  (decide (0x2000 ≤ c.toNat) && decide (c.toNat ≤ 0x200a)) ||
  c.toNat == 0x2028 || c.toNat == 0x2029 || c.toNat == 0x202f ||
  c.toNat == 0x205f || c.toNat == 0x3000 || c.toNat == 0xfeff

/-- JavaScript line terminators: the characters a regex dot does not match. -/
def isLineTerm (c : Char) : Bool :=
  c == '\n' || c == '\r' || c.toNat == 0x2028 || c.toNat == 0x2029

/-- JavaScript `s.trim()`. -/
def jsTrim (l : Str) : Str :=
  ((l.dropWhile isJsWs).reverse.dropWhile isJsWs).reverse

/-- Worker for `splitWs`: JavaScript `s.split(/\s+/)`.  The `Bool` flag is
`true` while skipping a run of whitespace that already closed a field; the
fuel argument equals the number of remaining characters, so it never runs
out. -/
def swF : Nat → Bool → Str → Str → List Str
  | 0, _, _, cur => [cur.reverse]
  | _ + 1, false, [], cur => [cur.reverse]
  | fuel + 1, false, c :: rest, cur =>
    if isJsWs c then cur.reverse :: swF fuel true rest []
    else swF fuel false rest (c :: cur)
  | _ + 1, true, [], _ => [[]]
  | fuel + 1, true, c :: rest, _ =>
    if isJsWs c then swF fuel true rest []
    else swF fuel false rest [c]

/-- JavaScript `s.split(/\s+/)`: split on maximal runs of whitespace; a
leading (trailing) run contributes a leading (trailing) empty field, and
the empty string yields one empty field. -/
def splitWs (l : Str) : List Str := swF l.length false l []

/-- JavaScript `array.join(" ")`. -/
def joinSp : List Str → Str
  | [] => []
  | [x] => x
  | x :: y :: xs => x ++ ' ' :: joinSp (y :: xs)

/-- Source `formatGridTemplateAreas` (src/index.ts lines 68-70):
`rows.map((row) => quoted row).join(" ")`.  Each row string is wrapped in
double quotes verbatim. -/
def formatGridTemplateAreas (rows : List Str) : Str :=
  joinSp (rows.map (fun r => '"' :: (r ++ ['"'])))

/-- JavaScript `s.split(",")`. -/
def splitOnComma : Str → List Str
  | [] => [[]]
  | c :: rest =>
    if c = ',' then [] :: splitOnComma rest
    else
      match splitOnComma rest with
      | [] => [[c]]
      | h :: t => (c :: h) :: t

/-- JavaScript `s.replace(/_/g, " ")`. -/
def replaceUnderscores (l : Str) : Str :=
  l.map (fun c => if c = '_' then ' ' else c)

/-- Does the list begin with the four characters `var(`? -/
def startsVar : Str → Bool
  | 'v' :: 'a' :: 'r' :: '(' :: _ => true
  | _ => false

/-- Is there a `)` reachable without first crossing a line terminator?
This is what the tail `.*\)` of the regex `/var\(.*\)/` needs after the
literal `var(`. -/
def hasCloseBeforeNL : Str → Bool
  | [] => false
  | c :: rest =>
    if c = ')' then true
    else if isLineTerm c then false
    else hasCloseBeforeNL rest

/-- JavaScript `s.match(/var\(.*\)/)` viewed as a Boolean: some position
starts `var(` followed by a `)` on the same line. -/
def containsVarMatch : Str → Bool
  | [] => false
  | c :: rest =>
    (startsVar (c :: rest) && hasCloseBeforeNL rest.tail.tail.tail) ||
      containsVarMatch rest

/-- JavaScript `s.match(/^var\(.*\)$/)` viewed as a Boolean: the whole
string is `var(`, then middle characters none of which is a line
terminator, then a final `)`. -/
def wholeVarMatch : Str → Bool
  | 'v' :: 'a' :: 'r' :: '(' :: rest =>
    match rest.reverse with
    | ')' :: midRev => midRev.all (fun c => !(isLineTerm c))
    | _ => false
  | _ => false

/-- One row of the arbitrary-value pipeline (src/index.ts lines 95-102):
replace underscores by spaces, trim, and quote unless the trimmed row
contains a `var(...)` reference. -/
def processRow (row : Str) : Str :=
  let t := jsTrim (replaceUnderscores row)
  if containsVarMatch t then t else '"' :: (t ++ ['"'])

/-- Source `parseArbitraryGridAreas` (src/index.ts lines 89-104). -/
def parseArbitraryGridAreas (value : Str) : Str :=
  if wholeVarMatch value then value
  else joinSp ((splitOnComma value).map processRow)

/-- JavaScript `Set.add` on a list kept in insertion order. -/
def insertUnique (acc : List Str) (x : Str) : List Str :=
  if x ∈ acc then acc else acc ++ [x]

/-- The body of the token loop in `extractAreaNames`: skip the empty-cell
markers `.` and `..`, add everything else to the set. -/
def addArea (acc : List Str) (area : Str) : List Str :=
  if area = str "." ∨ area = str ".." then acc else insertUnique acc area

/-- Source `extractAreaNames` (src/index.ts lines 49-63). -/
def extractAreaNames (rows : List Str) : List Str :=
  rows.foldl (fun acc row => (splitWs (jsTrim row)).foldl addArea acc) []

structure GridTemplateArea where
  rows : List Str
  gridTemplateRows : Option Str
  gridTemplateColumns : Option Str
deriving DecidableEq

inductive AreaConfig where
  | full : GridTemplateArea → AreaConfig
  | shorthand : List Str → AreaConfig
deriving DecidableEq

instance : Inhabited AreaConfig := ⟨AreaConfig.shorthand []⟩

/-- Source `normalizeAreaConfig` (src/index.ts lines 75-82). -/
def normalizeAreaConfig : AreaConfig → GridTemplateArea
  | .full g => g
  | .shorthand rows => ⟨rows, none, none⟩

abbrev Decl : Type := List (Str × Str)
abbrev UtilRecord : Type := List (Str × Decl)

def recKeys (rec : UtilRecord) : List Str := rec.map Prod.fst

/-- JavaScript object assignment `rec[k] = v`: updating an existing key
keeps its position, a fresh key is appended. -/
def recInsert (rec : UtilRecord) (k : Str) (v : Decl) : UtilRecord :=
  if k ∈ recKeys rec then rec.map (fun e => if e.1 = k then (k, v) else e)
  else rec ++ [(k, v)]

/-- How many entries of the record carry the key `k`. -/
def countKey (rec : UtilRecord) (k : Str) : Nat :=
  ((recKeys rec).filter (fun a => decide (a = k))).length

/-- Source `CSS_KEYWORDS` (src/index.ts line 43). -/
def CSS_KEYWORDS : List Str :=
  [str "none", str "inherit", str "initial", str "revert",
   str "revert-layer", str "unset"]

/-- Source `GRID_AREA_KEYWORDS` (src/index.ts line 44). -/
def GRID_AREA_KEYWORDS : List Str := str "auto" :: CSS_KEYWORDS

/-- The styles object built for one named layout (src/index.ts lines
146-157): `display`, `grid-template-areas`, and the two track properties
guarded by JavaScript truthiness (an empty string is falsy). -/
def layoutStyles (g : GridTemplateArea) : Decl :=
  [(str "display", str "grid"),
   (str "grid-template-areas", formatGridTemplateAreas g.rows)] ++
  (match g.gridTemplateRows with
   | some r => if r = [] then [] else [(str "grid-template-rows", r)]
   | none => []) ++
  (match g.gridTemplateColumns with
   | some c => if c = [] then [] else [(str "grid-template-columns", c)]
   | none => [])

def gridAreasSelector (name : Str) : Str := str ".grid-areas-" ++ name

def gridAreaSelector (name : Str) : Str := str ".grid-area-" ++ name

/-- The `gridAreasUtilities` record (src/index.ts lines 135-168): one entry
per named layout, then one entry per CSS keyword. -/
def gridAreasUtilities (layouts : List (Str × AreaConfig)) : UtilRecord :=
  let base := layouts.foldl
    (fun rec p =>
      recInsert rec (gridAreasSelector p.1)
        (layoutStyles (normalizeAreaConfig p.2))) []
  CSS_KEYWORDS.foldl
    (fun rec k =>
      recInsert rec (gridAreasSelector k)
        [(str "display", str "grid"), (str "grid-template-areas", k)]) base

/-- The `allAreaNames` set accumulated across all layouts (src/index.ts
lines 132, 142-143). -/
def allAreaNames (layouts : List (Str × AreaConfig)) : List Str :=
  layouts.foldl
    (fun acc p =>
      (extractAreaNames (normalizeAreaConfig p.2).rows).foldl insertUnique acc)
    []

/-- The `gridAreaUtilities` record (src/index.ts lines 173-186): one entry
per discovered area name, then one per keyword in `GRID_AREA_KEYWORDS`. -/
def gridAreaUtilities (layouts : List (Str × AreaConfig)) : UtilRecord :=
  let base := (allAreaNames layouts).foldl
    (fun rec a => recInsert rec (gridAreaSelector a) [(str "grid-area", a)]) []
  GRID_AREA_KEYWORDS.foldl
    (fun rec k => recInsert rec (gridAreaSelector k) [(str "grid-area", k)])
    base

/-- The six line-utility entries one area name contributes (src/index.ts
lines 193-215), in source order. -/
def lineEntriesFor (a : Str) : UtilRecord :=
  [(str ".row-start-" ++ a, [(str "grid-row-start", a ++ str "-start")]),
   (str ".row-end-" ++ a, [(str "grid-row-end", a ++ str "-end")]),
   (str ".row-span-" ++ a,
     [(str "grid-row", a ++ str "-start / " ++ (a ++ str "-end"))]),
   (str ".col-start-" ++ a, [(str "grid-column-start", a ++ str "-start")]),
   (str ".col-end-" ++ a, [(str "grid-column-end", a ++ str "-end")]),
   (str ".col-span-" ++ a,
     [(str "grid-column", a ++ str "-start / " ++ (a ++ str "-end"))])]

def sixSelectors (a : Str) : List Str :=
  [str ".row-start-" ++ a, str ".row-end-" ++ a, str ".row-span-" ++ a,
   str ".col-start-" ++ a, str ".col-end-" ++ a, str ".col-span-" ++ a]

/-- The `lineUtilities` record over a given list of area names
(src/index.ts lines 191-217). -/
def lineUtilitiesOf (names : List Str) : UtilRecord :=
  names.foldl
    (fun rec a => (lineEntriesFor a).foldl (fun r e => recInsert r e.1 e.2) rec)
    []

/-- The `lineUtilities` record as built by the plugin, over the discovered
area names. -/
def lineUtilities (layouts : List (Str × AreaConfig)) : UtilRecord :=
  lineUtilitiesOf (allAreaNames layouts)

/-- The concatenation of the line entries of a list of area names, in
order: what the line-utility fold produces when no selector collides. -/
def concatEntries (names : List Str) : UtilRecord :=
  names.foldr (fun b acc => lineEntriesFor b ++ acc) []

/-- Reading a quoted segment back: consume characters up to the next `"`,
returning the segment and the remainder after the quote. -/
def readRow : Str → Option (Str × Str)
  | [] => none
  | c :: rest =>
    if c = '"' then some ([], rest)
    else (readRow rest).map (fun p => (c :: p.1, p.2))

/-- Worker for `decodeAreas`; the fuel bounds the number of rows. -/
def decodeFuel : Nat → Str → Option (List Str)
  | fuel + 1, '"' :: rest =>
    (match readRow rest with
     | some (row, []) => some [row]
     | some (row, ' ' :: tail) => (decodeFuel fuel tail).map (fun rs => row :: rs)
     | _ => none)
  | _, _ => none

/-- Split a `grid-template-areas` value on its quote boundaries and strip
the quotes, recovering the list of row segments: the round-trip reader the
specification describes. -/
def decodeAreas (l : Str) : Option (List Str) := decodeFuel l.length l

inductive LayoutError where
  | malformedLayout
deriving DecidableEq

/-- Modelled from the spec: the spec (section 4.1 and section 7) demands
that the static layout path fail with a `MalformedLayout` condition on an
empty row (a row with zero cell tokens); no such check exists anywhere in
the source, which is why this definition follows the spec's words. -/
def specCheckedFormat (rows : List Str) : Except LayoutError Str :=
  if rows.any (fun r => decide (jsTrim r = [])) then
    .error .malformedLayout
  else .ok (formatGridTemplateAreas rows)

/-- Modelled from the spec's words, for comparison with the source
`formatGridTemplateAreas`: split each row on runs of whitespace, rejoin
the tokens with single spaces, wrap in quotes, join the quoted rows with
single spaces. -/
def specNormalizedFormat (rows : List Str) : Str :=
  joinSp (rows.map (fun r => '"' :: (joinSp (splitWs (jsTrim r)) ++ ['"'])))

example : formatGridTemplateAreas [str "header header", str "sidebar main"] =
    str "\"header header\" \"sidebar main\"" := by decide

example : parseArbitraryGridAreas (str "header_header,sidebar_main") =
    str "\"header header\" \"sidebar main\"" := by decide

example : parseArbitraryGridAreas (str "var(--my-areas)") =
    str "var(--my-areas)" := by decide

example : parseArbitraryGridAreas (str "a_.,b_var(--x)") =
    str "\"a .\" b var(--x)" := by decide

example : extractAreaNames [str "a . b", str ". c ."] =
    [str "a", str "b", str "c"] := by decide

example : decodeAreas (str "\"a b\" \"c\"") = some [str "a b", str "c"] := by
  decide

/-! ## General helper lemmas -/

lemma readRow_append (r t : Str) (h : ('"' : Char) ∉ r) :
    readRow (r ++ '"' :: t) = some (r, t) := by
  induction r with
  | nil => simp [readRow]
  | cons c r ih =>
    have hc : c ≠ '"' := by
      intro e
      exact h (by rw [e]; exact List.mem_cons_self ..)
    have hr : ('"' : Char) ∉ r := fun m => h (List.mem_cons_of_mem _ m)
    simp [readRow, hc, ih hr]

lemma format_singleton (r : Str) :
    formatGridTemplateAreas [r] = '"' :: (r ++ '"' :: []) := by
  simp [formatGridTemplateAreas, joinSp]

lemma format_cons_ne (r : Str) (rest : List Str) (h : rest ≠ []) :
    formatGridTemplateAreas (r :: rest) =
      '"' :: (r ++ '"' :: (' ' :: formatGridTemplateAreas rest)) := by
  cases rest with
  | nil => exact absurd rfl h
  | cons a l => simp [formatGridTemplateAreas, joinSp]

lemma length_le_format (rows : List Str) :
    rows.length ≤ (formatGridTemplateAreas rows).length := by
  induction rows with
  | nil => simp [formatGridTemplateAreas, joinSp]
  | cons r rest ih =>
    cases rest with
    | nil => simp [format_singleton]
    | cons a l =>
      rw [format_cons_ne r (a :: l) (by simp)]
      simp only [List.length_cons, List.length_append] at ih ⊢
      omega

lemma decodeFuel_format :
    ∀ (rows : List Str) (fuel : Nat), rows.length ≤ fuel → rows ≠ [] →
      (∀ r ∈ rows, ('"' : Char) ∉ r) →
      decodeFuel fuel (formatGridTemplateAreas rows) = some rows := by
  intro rows
  induction rows with
  | nil => intro fuel _ hne _; exact absurd rfl hne
  | cons r rest ih =>
    intro fuel hlen _ hq
    cases fuel with
    | zero => simp at hlen
    | succ f =>
      have hqr : ('"' : Char) ∉ r := hq r (by simp)
      cases rest with
      | nil =>
        rw [format_singleton]
        simp [decodeFuel, readRow_append r [] hqr]
      | cons r2 rest2 =>
        rw [format_cons_ne r (r2 :: rest2) (by simp)]
        have ihres := ih f (by simpa using hlen) (by simp)
          (fun x hx => hq x (List.mem_cons_of_mem _ hx))
        simp [decodeFuel,
          readRow_append r (' ' :: formatGridTemplateAreas (r2 :: rest2)) hqr,
          ihres]

lemma decode_format (rows : List Str) (h1 : rows ≠ [])
    (h2 : ∀ r ∈ rows, ('"' : Char) ∉ r) :
    decodeAreas (formatGridTemplateAreas rows) = some rows :=
  decodeFuel_format rows _ (length_le_format rows) h1 h2

lemma wholeVar_decomp (m : Str) (h : m.all (fun c => !(isLineTerm c)) = true) :
    wholeVarMatch ('v' :: 'a' :: 'r' :: '(' :: (m ++ [')'])) = true := by
  simp [wholeVarMatch, List.reverse_append, h]

lemma parse_wholeVar (m : Str) (h : m.all (fun c => !(isLineTerm c)) = true) :
    parseArbitraryGridAreas ('v' :: 'a' :: 'r' :: '(' :: (m ++ [')'])) =
      'v' :: 'a' :: 'r' :: '(' :: (m ++ [')']) := by
  unfold parseArbitraryGridAreas
  rw [wholeVar_decomp m h]
  simp

lemma splitOnComma_ne_nil (l : Str) : splitOnComma l ≠ [] := by
  cases l with
  | nil => simp [splitOnComma]
  | cons c rest =>
    simp only [splitOnComma]
    split
    · simp
    · split <;> simp

lemma splitOnComma_two (l : Str) (h : ',' ∈ l) :
    2 ≤ (splitOnComma l).length := by
  induction l with
  | nil => simp at h
  | cons c rest ih =>
    simp only [splitOnComma]
    split
    · have := List.length_pos_of_ne_nil (splitOnComma_ne_nil rest)
      simp only [List.length_cons]
      omega
    · rename_i hc
      have hrest : ',' ∈ rest := by
        rcases List.mem_cons.mp h with h1 | h1
        · exact absurd h1.symm hc
        · exact h1
      have := ih hrest
      split
      · rename_i heq
        exact absurd heq (splitOnComma_ne_nil rest)
      · rename_i h2 parts hsplit
        rw [hsplit] at this
        simpa using this

/-! ## Claim C1 -/

/-- C1, counterexample: the claim says the static path splits each row on
whitespace runs and rejoins the tokens with single spaces before quoting;
the source `formatGridTemplateAreas` quotes each row verbatim, so on the
row `"a  b"` (double space) the two disagree. -/
theorem c1_counterexample :
    formatGridTemplateAreas [str "a  b"] ≠ specNormalizedFormat [str "a  b"] ∧
    formatGridTemplateAreas [str "a  b"] = str "\"a  b\"" ∧
    specNormalizedFormat [str "a  b"] = str "\"a b\"" := by
  decide

/-- C1, amended: each row is wrapped in double quotes verbatim (no
whitespace tokenisation or collapsing) and the quoted rows are joined with
single spaces preserving order; splitting the output on quote boundaries
and stripping quotes reconstructs the original rows exactly as written
(for a nonempty row list whose rows contain no double-quote character),
not their whitespace-normalised form. -/
theorem c1_amended (rows : List Str) (h1 : rows ≠ [])
    (h2 : ∀ r ∈ rows, ('"' : Char) ∉ r) :
    decodeAreas (formatGridTemplateAreas rows) = some rows :=
  decode_format rows h1 h2

/-- C1, witness: the round-trip at a concrete layout whose second row keeps
its double internal space. -/
theorem c1_witness :
    decodeAreas (formatGridTemplateAreas
        [str "header header", str "sidebar  main"]) =
      some [str "header header", str "sidebar  main"] :=
  c1_amended [str "header header", str "sidebar  main"] (by decide) (by decide)

/-! ## Claim C2 -/

/-- C2, counterexample: the spec-modelled checker rejects a layout with an
empty row with `MalformedLayout`, but the source `formatGridTemplateAreas`
raises nothing on that input: it returns the string `""` (an empty quoted
row).  There is no error path anywhere in the static code. -/
theorem c2_counterexample :
    specCheckedFormat [[]] = Except.error LayoutError.malformedLayout ∧
    formatGridTemplateAreas [[]] = str "\"\"" :=
  ⟨rfl, by decide⟩

/-- C2, amended: a statically declared layout containing an empty row
string is processed without any error; the empty row is wrapped verbatim
and appears in the emitted `grid-template-areas` value as the empty quoted
segment `""`. -/
theorem c2_amended :
    ∀ (rows : List Str), [] ∈ rows →
      ∃ s t, formatGridTemplateAreas rows = s ++ str "\"\"" ++ t := by
  intro rows
  induction rows with
  | nil => intro h; simp at h
  | cons r rest ih =>
    intro h
    cases rest with
    | nil =>
      have hr : r = [] := by simpa using h
      subst hr
      exact ⟨[], [], by simp [format_singleton, str]⟩
    | cons a l =>
      rcases List.mem_cons.mp h with hr | hrest
      · refine ⟨[], ' ' :: formatGridTemplateAreas (a :: l), ?_⟩
        rw [format_cons_ne r (a :: l) (by simp), ← hr]
        simp [str]
      · obtain ⟨s, t, hst⟩ := ih hrest
        refine ⟨('"' :: (r ++ ['"'])) ++ [' '] ++ s, t, ?_⟩
        rw [format_cons_ne r (a :: l) (by simp), hst]
        simp [str]

/-- C2, witness: the layout `["a", ""]` is formatted without error, the
empty row surviving as `""`. -/
theorem c2_witness :
    ∃ s t, formatGridTemplateAreas [str "a", []] = s ++ str "\"\"" ++ t :=
  c2_amended [str "a", []] (by decide)

/-! ## Claim C3 -/

/-- C3: a value that fails the whole-value `var(...)` check is split on
commas; each row has underscores replaced by spaces and is trimmed, is
left unquoted exactly when it still contains a `var(...)` reference, and
the processed rows are joined with single spaces; an empty field between
two commas becomes the empty quoted row `""` at the same position
(preserved, not collapsed). -/
theorem c3 (v : Str) (h : wholeVarMatch v = false) :
    parseArbitraryGridAreas v =
      joinSp ((splitOnComma v).map (fun row =>
        let t := jsTrim (row.map (fun c => if c = '_' then ' ' else c))
        if containsVarMatch t then t else '"' :: (t ++ ['"']))) ∧
    (∀ i : Nat, (splitOnComma v)[i]? = some [] →
      ((splitOnComma v).map processRow)[i]? = some (str "\"\"")) := by
  constructor
  · simp only [parseArbitraryGridAreas, h, Bool.false_eq_true, if_false]
    rfl
  · intro i hi
    rw [List.getElem?_map, hi]
    rfl

/-- C3, witness: `"a_b,,c"` (not a whole-value variable) parses row by row
and the empty field at index 1 is preserved as `""`. -/
theorem c3_witness :
    ((splitOnComma (str "a_b,,c")).map processRow)[1]? = some (str "\"\"") ∧
    parseArbitraryGridAreas (str "a_b,,c") = str "\"a b\" \"\" \"c\"" :=
  ⟨(c3 (str "a_b,,c") (by decide)).2 1 (by decide), by decide⟩

/-! ## Claim C4 -/

/-- C4, counterexample: `" var(--x)"` (leading space) has a trimmed form
that matches `var(...)` in full, yet the parser does not return it
unchanged: the whole-value regex `^var\(.*\)$` is applied to the raw,
untrimmed value, so the string falls through to row processing and comes
back trimmed. -/
theorem c4_counterexample :
    jsTrim (str " var(--x)") = str "var(--x)" ∧
    wholeVarMatch (str "var(--x)") = true ∧
    parseArbitraryGridAreas (str " var(--x)") ≠ str " var(--x)" ∧
    parseArbitraryGridAreas (str " var(--x)") = str "var(--x)" := by
  decide

/-- C4, amended: a string whose entire *untrimmed* form matches
`var(...)` — it is literally `var(` ++ middle ++ `)` with no line
terminator in the middle — is returned unchanged, with no tokenisation, no
underscore substitution, and no quoting. -/
theorem c4_amended (m : Str) (h : m.all (fun c => !(isLineTerm c)) = true) :
    parseArbitraryGridAreas ('v' :: 'a' :: 'r' :: '(' :: (m ++ [')'])) =
      'v' :: 'a' :: 'r' :: '(' :: (m ++ [')']) :=
  parse_wholeVar m h

/-- C4, witness: `var(--my-areas)` is returned unchanged. -/
theorem c4_witness :
    parseArbitraryGridAreas (str "var(--my-areas)") = str "var(--my-areas)" :=
  c4_amended (str "--my-areas") (by decide)

/-! ## Claim C9 -/

/-- C9, counterexample: `var(` + newline + `)` begins with `var(` and ends
with `)`, but the regex dot does not match a line terminator, so the value
is not passed through unchanged — it is row-processed and quoted. -/
theorem c9_counterexample :
    (str "var(\n)").take 4 = str "var(" ∧
    (str "var(\n)").getLast? = some ')' ∧
    parseArbitraryGridAreas (str "var(\n)") ≠ str "var(\n)" ∧
    parseArbitraryGridAreas (str "var(\n)") = str "\"var(\n)\"" := by
  decide

/-- C9, amended: every string that begins with `var(` and ends with `)`
and has no line terminator in between is returned unchanged even when it
contains commas — `.*` in `^var\(.*\)$` matches commas and closing
parentheses — although the comma would have split it into at least two
rows had it fallen through. -/
theorem c9_amended (m : Str) (h1 : m.all (fun c => !(isLineTerm c)) = true)
    (h2 : ',' ∈ m) :
    parseArbitraryGridAreas ('v' :: 'a' :: 'r' :: '(' :: (m ++ [')'])) =
      'v' :: 'a' :: 'r' :: '(' :: (m ++ [')']) ∧
    2 ≤ (splitOnComma ('v' :: 'a' :: 'r' :: '(' :: (m ++ [')']))).length := by
  refine ⟨parse_wholeVar m h1, splitOnComma_two _ ?_⟩
  simp [h2]

/-- C9, witness: `var(--a),var(--b)` is passed through whole rather than
being split at the comma into two rows. -/
theorem c9_witness :
    parseArbitraryGridAreas (str "var(--a),var(--b)") =
      str "var(--a),var(--b)" ∧
    2 ≤ (splitOnComma (str "var(--a),var(--b)")).length :=
  c9_amended (str "--a),var(--b") (by decide) (by decide)

/-! ## Set/fold helper lemmas -/

lemma mem_insertUnique (acc : List Str) (a x : Str) :
    x ∈ insertUnique acc a ↔ x ∈ acc ∨ x = a := by
  unfold insertUnique
  split
  · rename_i h
    constructor
    · exact Or.inl
    · rintro (h1 | rfl)
      · exact h1
      · exact h
  · simp

lemma nodup_insertUnique (acc : List Str) (a : Str) (h : acc.Nodup) :
    (insertUnique acc a).Nodup := by
  unfold insertUnique
  split
  · exact h
  · rename_i hna
    simp [List.nodup_append, h, hna]

lemma mem_addArea (acc : List Str) (a x : Str) :
    x ∈ addArea acc a ↔
      x ∈ acc ∨ (x = a ∧ a ≠ str "." ∧ a ≠ str "..") := by
  unfold addArea
  split
  · rename_i h
    constructor
    · exact Or.inl
    · rintro (h1 | ⟨rfl, hne1, hne2⟩)
      · exact h1
      · rcases h with h | h
        · exact absurd h hne1
        · exact absurd h hne2
  · rename_i h
    push_neg at h
    rw [mem_insertUnique]
    constructor
    · rintro (h1 | rfl)
      · exact Or.inl h1
      · exact Or.inr ⟨rfl, h.1, h.2⟩
    · rintro (h1 | ⟨rfl, _, _⟩)
      · exact Or.inl h1
      · exact Or.inr rfl

lemma nodup_addArea (acc : List Str) (a : Str) (h : acc.Nodup) :
    (addArea acc a).Nodup := by
  unfold addArea
  split
  · exact h
  · exact nodup_insertUnique acc a h

lemma foldAddArea_mem (toks : List Str) :
    ∀ (acc : List Str) (x : Str),
      x ∈ toks.foldl addArea acc ↔
        x ∈ acc ∨ (x ∈ toks ∧ x ≠ str "." ∧ x ≠ str "..") := by
  induction toks with
  | nil => simp
  | cons t ts ih =>
    intro acc x
    rw [List.foldl_cons, ih, mem_addArea, List.mem_cons]
    constructor
    · rintro ((hx | ⟨rfl, h1, h2⟩) | ⟨hts, h1, h2⟩)
      · exact Or.inl hx
      · exact Or.inr ⟨Or.inl rfl, h1, h2⟩
      · exact Or.inr ⟨Or.inr hts, h1, h2⟩
    · rintro (hx | ⟨rfl | hts, h1, h2⟩)
      · exact Or.inl (Or.inl hx)
      · exact Or.inl (Or.inr ⟨rfl, h1, h2⟩)
      · exact Or.inr ⟨hts, h1, h2⟩

lemma foldAddArea_nodup (toks : List Str) :
    ∀ acc : List Str, acc.Nodup → (toks.foldl addArea acc).Nodup := by
  induction toks with
  | nil => exact fun _ h => h
  | cons t ts ih => exact fun acc h => ih _ (nodup_addArea acc t h)

lemma extract_mem_aux (rows : List Str) :
    ∀ (acc : List Str) (x : Str),
      x ∈ rows.foldl (fun acc row => (splitWs (jsTrim row)).foldl addArea acc) acc ↔
        x ∈ acc ∨
          (x ≠ str "." ∧ x ≠ str ".." ∧ ∃ r, r ∈ rows ∧ x ∈ splitWs (jsTrim r)) := by
  induction rows with
  | nil => simp
  | cons r rows' ih =>
    intro acc x
    rw [List.foldl_cons, ih, foldAddArea_mem]
    constructor
    · rintro ((hx | ⟨hmem, h1, h2⟩) | ⟨h1, h2, rr, hrr, hmem⟩)
      · exact Or.inl hx
      · exact Or.inr ⟨h1, h2, r, List.mem_cons_self .., hmem⟩
      · exact Or.inr ⟨h1, h2, rr, List.mem_cons_of_mem _ hrr, hmem⟩
    · rintro (hx | ⟨h1, h2, rr, hrr, hmem⟩)
      · exact Or.inl (Or.inl hx)
      · rcases List.mem_cons.mp hrr with rfl | hrr'
        · exact Or.inl (Or.inr ⟨hmem, h1, h2⟩)
        · exact Or.inr ⟨h1, h2, rr, hrr', hmem⟩

lemma extract_nodup_aux (rows : List Str) :
    ∀ acc : List Str, acc.Nodup →
      (rows.foldl (fun acc row => (splitWs (jsTrim row)).foldl addArea acc) acc).Nodup := by
  induction rows with
  | nil => exact fun _ h => h
  | cons r rows' ih => exact fun acc h => ih _ (foldAddArea_nodup _ acc h)

/-! ## Claim C5 -/

/-- C5: `extractAreaNames` returns exactly the distinct cell tokens of the
rows (each row trimmed and split on whitespace runs) minus the two
empty-cell markers `.` and `..`; nothing else is filtered and the result
has no duplicates. -/
theorem c5 (rows : List Str) (x : Str) :
    (x ∈ extractAreaNames rows ↔
      x ≠ str "." ∧ x ≠ str ".." ∧ ∃ r, r ∈ rows ∧ x ∈ splitWs (jsTrim r)) ∧
    (extractAreaNames rows).Nodup := by
  constructor
  · have := extract_mem_aux rows [] x
    simpa [extractAreaNames] using this
  · exact extract_nodup_aux rows [] List.nodup_nil

/-! ## Claim C8 -/

lemma mem_layoutStyles (g : GridTemplateArea) (p : Str × Str) :
    p ∈ layoutStyles g ↔
      p = (str "display", str "grid") ∨
      p = (str "grid-template-areas", formatGridTemplateAreas g.rows) ∨
      (∃ r, g.gridTemplateRows = some r ∧ r ≠ [] ∧
        p = (str "grid-template-rows", r)) ∨
      (∃ c, g.gridTemplateColumns = some c ∧ c ≠ [] ∧
        p = (str "grid-template-columns", c)) := by
  obtain ⟨rows, gr, gc⟩ := g
  rcases gr with _ | r <;> rcases gc with _ | c
  · simp [layoutStyles]
  · by_cases hc : c = [] <;> simp [layoutStyles, hc]
  · by_cases hr : r = [] <;> simp [layoutStyles, hr]
  · by_cases hr : r = [] <;> by_cases hc : c = [] <;>
      simp [layoutStyles, hr, hc]

/-- C8, counterexample: a layout whose `gridTemplateRows` is *provided* but
is the empty string gets no `grid-template-rows` property — the source
guards the insertion with a JavaScript truthiness test, and an empty
string is falsy. -/
theorem c8_counterexample :
    (GridTemplateArea.mk [str "a"] (some []) none).gridTemplateRows =
      some [] ∧
    str "grid-template-rows" ∉
      (layoutStyles (GridTemplateArea.mk [str "a"] (some []) none)).map
        Prod.fst := by
  refine ⟨rfl, ?_⟩
  decide

/-- C8, amended: every layout utility sets `display: grid` and
`grid-template-areas`, and carries `grid-template-rows`
(resp. `grid-template-columns`) if and only if the corresponding track
argument is provided *and nonempty* — a provided-but-empty track string is
treated as absent, and when the property is absent no default value is
injected. -/
theorem c8_amended (g : GridTemplateArea) (tr : Str) :
    (str "display", str "grid") ∈ layoutStyles g ∧
    (str "grid-template-areas", formatGridTemplateAreas g.rows) ∈
      layoutStyles g ∧
    ((str "grid-template-rows", tr) ∈ layoutStyles g ↔
      g.gridTemplateRows = some tr ∧ tr ≠ []) ∧
    ((str "grid-template-columns", tr) ∈ layoutStyles g ↔
      g.gridTemplateColumns = some tr ∧ tr ≠ []) := by
  have hrd : str "grid-template-rows" ≠ str "display" := by decide
  have hra : str "grid-template-rows" ≠ str "grid-template-areas" := by decide
  have hrc : str "grid-template-rows" ≠ str "grid-template-columns" := by
    decide
  have hcd : str "grid-template-columns" ≠ str "display" := by decide
  have hca : str "grid-template-columns" ≠ str "grid-template-areas" := by
    decide
  refine ⟨?_, ?_, ?_, ?_⟩
  · rw [mem_layoutStyles]
    exact Or.inl rfl
  · rw [mem_layoutStyles]
    exact Or.inr (Or.inl rfl)
  · rw [mem_layoutStyles]
    constructor
    · rintro (h | h | ⟨r, hsome, hne, heq⟩ | ⟨c, hsome, hne, heq⟩)
      · exact absurd (congrArg Prod.fst h) hrd
      · exact absurd (congrArg Prod.fst h) hra
      · have htr : tr = r := congrArg Prod.snd heq
        subst htr
        exact ⟨hsome, hne⟩
      · exact absurd (congrArg Prod.fst heq) hrc
    · rintro ⟨hsome, hne⟩
      exact Or.inr (Or.inr (Or.inl ⟨tr, hsome, hne, rfl⟩))
  · rw [mem_layoutStyles]
    constructor
    · rintro (h | h | ⟨r, hsome, hne, heq⟩ | ⟨c, hsome, hne, heq⟩)
      · exact absurd (congrArg Prod.fst h) hcd
      · exact absurd (congrArg Prod.fst h) hca
      · exact absurd (congrArg Prod.fst heq).symm hrc
      · have htr : tr = c := congrArg Prod.snd heq
        subst htr
        exact ⟨hsome, hne⟩
    · rintro ⟨hsome, hne⟩
      exact Or.inr (Or.inr (Or.inr ⟨tr, hsome, hne, rfl⟩))

/-! ## Record (JavaScript object) helper lemmas -/

lemma recKeys_recInsert (rec : UtilRecord) (k : Str) (v : Decl) :
    recKeys (recInsert rec k v) =
      if k ∈ recKeys rec then recKeys rec else recKeys rec ++ [k] := by
  unfold recInsert
  split
  · rename_i h
    unfold recKeys
    rw [List.map_map]
    refine List.map_congr_left ?_
    intro e _
    by_cases he : e.1 = k
    · simp [he]
    · simp [he]
  · rename_i h
    simp [recKeys]

lemma mem_recKeys_recInsert_self (rec : UtilRecord) (k : Str) (v : Decl) :
    k ∈ recKeys (recInsert rec k v) := by
  rw [recKeys_recInsert]
  split
  · rename_i h
    exact h
  · simp

lemma mem_recKeys_recInsert_of_mem (rec : UtilRecord) (k a : Str) (v : Decl)
    (h : a ∈ recKeys rec) : a ∈ recKeys (recInsert rec k v) := by
  rw [recKeys_recInsert]
  split <;> simp [h]

lemma nodup_recKeys_recInsert (rec : UtilRecord) (k : Str) (v : Decl)
    (h : (recKeys rec).Nodup) : (recKeys (recInsert rec k v)).Nodup := by
  rw [recKeys_recInsert]
  split
  · exact h
  · rename_i hk
    simp [List.nodup_append, h, hk]

lemma foldl_recInsert_key_mem {α : Type} (key : α → Str) (val : α → Decl)
    (l : List α) :
    ∀ (rec : UtilRecord) (a : Str), a ∈ recKeys rec →
      a ∈ recKeys (l.foldl (fun r x => recInsert r (key x) (val x)) rec) := by
  induction l with
  | nil => exact fun _ _ h => h
  | cons y l' ih =>
    intro rec a h
    exact ih _ a (mem_recKeys_recInsert_of_mem rec (key y) a (val y) h)

lemma foldl_recInsert_mem_of_mem {α : Type} (key : α → Str) (val : α → Decl)
    (l : List α) :
    ∀ (rec : UtilRecord) (x : α), x ∈ l →
      key x ∈ recKeys (l.foldl (fun r x => recInsert r (key x) (val x)) rec) := by
  induction l with
  | nil => intro _ _ h; simp at h
  | cons y l' ih =>
    intro rec x hx
    rcases List.mem_cons.mp hx with rfl | hx'
    · exact foldl_recInsert_key_mem key val l' _ (key x)
        (mem_recKeys_recInsert_self rec (key x) (val x))
    · exact ih _ x hx'

lemma filter_eq_length_one {l : List Str} {a : Str} (hnd : l.Nodup)
    (ha : a ∈ l) : (l.filter (fun x => decide (x = a))).length = 1 := by
  induction l with
  | nil => simp at ha
  | cons b l' ih =>
    have hb : b ∉ l' := (List.nodup_cons.mp hnd).1
    have hnd' : l'.Nodup := (List.nodup_cons.mp hnd).2
    rcases List.mem_cons.mp ha with rfl | ha'
    · have hnil : l'.filter (fun x => decide (x = a)) = [] := by
        refine List.filter_eq_nil_iff.mpr ?_
        intro x hx
        simp only [decide_eq_true_eq]
        intro hxa
        exact hb (hxa ▸ hx)
      simp [List.filter_cons, hnil]
    · have hba : b ≠ a := by
        intro hba
        exact hb (hba ▸ ha')
      simp [List.filter_cons, hba, ih hnd' ha']

lemma countKey_eq_one (rec : UtilRecord) (k : Str)
    (hnd : (recKeys rec).Nodup) (hk : k ∈ recKeys rec) :
    countKey rec k = 1 :=
  filter_eq_length_one hnd hk

lemma foldl_recInsert_nodup {α : Type} (key : α → Str) (val : α → Decl)
    (l : List α) :
    ∀ rec : UtilRecord, (recKeys rec).Nodup →
      (recKeys (l.foldl (fun r x => recInsert r (key x) (val x)) rec)).Nodup := by
  induction l with
  | nil => exact fun _ h => h
  | cons y l' ih =>
    intro rec h
    exact ih _ (nodup_recKeys_recInsert rec (key y) (val y) h)

/-! ## Claim C7 -/

/-- C7: every CSS-wide keyword yields exactly one entry in the
`grid-areas` utility record, and every keyword of the `grid-area` family
(`auto` included) yields exactly one entry in the `grid-area` record,
regardless of the configured layouts — even when a user layout shares a
keyword's name, the record holds a single entry for that selector. -/
theorem c7 (layouts : List (Str × AreaConfig)) :
    (∀ k, k ∈ CSS_KEYWORDS →
      countKey (gridAreasUtilities layouts) (gridAreasSelector k) = 1) ∧
    (∀ k, k ∈ GRID_AREA_KEYWORDS →
      countKey (gridAreaUtilities layouts) (gridAreaSelector k) = 1) := by
  constructor
  · intro k hk
    have hnd : (recKeys (gridAreasUtilities layouts)).Nodup := by
      unfold gridAreasUtilities
      exact foldl_recInsert_nodup _ _ CSS_KEYWORDS _
        (foldl_recInsert_nodup _ _ layouts [] (by simp [recKeys]))
    have hmem : gridAreasSelector k ∈ recKeys (gridAreasUtilities layouts) := by
      unfold gridAreasUtilities
      exact foldl_recInsert_mem_of_mem _ _ CSS_KEYWORDS _ k hk
    exact countKey_eq_one _ _ hnd hmem
  · intro k hk
    have hnd : (recKeys (gridAreaUtilities layouts)).Nodup := by
      unfold gridAreaUtilities
      exact foldl_recInsert_nodup _ _ GRID_AREA_KEYWORDS _
        (foldl_recInsert_nodup _ _ (allAreaNames layouts) [] (by simp [recKeys]))
    have hmem : gridAreaSelector k ∈ recKeys (gridAreaUtilities layouts) := by
      unfold gridAreaUtilities
      exact foldl_recInsert_mem_of_mem _ _ GRID_AREA_KEYWORDS _ k hk
    exact countKey_eq_one _ _ hnd hmem

/-- C7, witness: with a user layout literally named `none` (colliding with
the keyword), the `grid-areas-none` selector still has exactly one entry;
likewise `grid-area-auto`. -/
theorem c7_witness :
    countKey (gridAreasUtilities [(str "none", AreaConfig.shorthand [str "a a"])])
      (gridAreasSelector (str "none")) = 1 ∧
    countKey (gridAreaUtilities [(str "none", AreaConfig.shorthand [str "a a"])])
      (gridAreaSelector (str "auto")) = 1 :=
  ⟨(c7 [(str "none", AreaConfig.shorthand [str "a a"])]).1 (str "none")
      (by decide),
   (c7 [(str "none", AreaConfig.shorthand [str "a a"])]).2 (str "auto")
      (by decide)⟩

/-! ## Area-name accumulation lemmas -/

lemma foldInsertUnique_mem (l : List Str) :
    ∀ (acc : List Str) (x : Str),
      x ∈ l.foldl insertUnique acc ↔ x ∈ acc ∨ x ∈ l := by
  induction l with
  | nil => simp
  | cons y l' ih =>
    intro acc x
    rw [List.foldl_cons, ih, mem_insertUnique]
    constructor
    · rintro ((hx | rfl) | hl)
      · exact Or.inl hx
      · exact Or.inr (List.mem_cons_self ..)
      · exact Or.inr (List.mem_cons_of_mem _ hl)
    · rintro (hx | hy)
      · exact Or.inl (Or.inl hx)
      · rcases List.mem_cons.mp hy with rfl | hl
        · exact Or.inl (Or.inr rfl)
        · exact Or.inr hl

lemma foldInsertUnique_nodup (l : List Str) :
    ∀ acc : List Str, acc.Nodup → (l.foldl insertUnique acc).Nodup := by
  induction l with
  | nil => exact fun _ h => h
  | cons y l' ih => exact fun acc h => ih _ (nodup_insertUnique acc y h)

lemma allAreaNames_aux (layouts : List (Str × AreaConfig)) :
    ∀ (acc : List Str) (x : Str),
      x ∈ layouts.foldl
          (fun acc p =>
            (extractAreaNames (normalizeAreaConfig p.2).rows).foldl
              insertUnique acc) acc ↔
        x ∈ acc ∨
          ∃ p, p ∈ layouts ∧
            x ∈ extractAreaNames (normalizeAreaConfig p.2).rows := by
  induction layouts with
  | nil => simp
  | cons q layouts' ih =>
    intro acc x
    rw [List.foldl_cons, ih, foldInsertUnique_mem]
    constructor
    · rintro ((hx | hq) | ⟨p, hp, hmem⟩)
      · exact Or.inl hx
      · exact Or.inr ⟨q, List.mem_cons_self .., hq⟩
      · exact Or.inr ⟨p, List.mem_cons_of_mem _ hp, hmem⟩
    · rintro (hx | ⟨p, hp, hmem⟩)
      · exact Or.inl (Or.inl hx)
      · rcases List.mem_cons.mp hp with rfl | hp'
        · exact Or.inl (Or.inr hmem)
        · exact Or.inr ⟨p, hp', hmem⟩

lemma allAreaNames_mem (layouts : List (Str × AreaConfig)) (x : Str) :
    x ∈ allAreaNames layouts ↔
      ∃ p, p ∈ layouts ∧
        x ∈ extractAreaNames (normalizeAreaConfig p.2).rows := by
  have := allAreaNames_aux layouts [] x
  simpa [allAreaNames] using this

lemma allAreaNames_nodup (layouts : List (Str × AreaConfig)) :
    (allAreaNames layouts).Nodup := by
  unfold allAreaNames
  generalize hacc : ([] : List Str) = acc
  have hnd : acc.Nodup := hacc ▸ List.nodup_nil
  clear hacc
  induction layouts generalizing acc with
  | nil => exact hnd
  | cons q layouts' ih =>
    exact ih _ (foldInsertUnique_nodup _ acc hnd)

/-! ## Line-utility fold lemmas -/

lemma lineFold_key_mem (names : List Str) :
    ∀ (rec : UtilRecord) (k : Str), k ∈ recKeys rec →
      k ∈ recKeys (names.foldl
        (fun rec a =>
          (lineEntriesFor a).foldl (fun r e => recInsert r e.1 e.2) rec)
        rec) := by
  induction names with
  | nil => exact fun _ _ h => h
  | cons b rest ih =>
    intro rec k hk
    exact ih _ k (foldl_recInsert_key_mem Prod.fst Prod.snd _ rec k hk)

lemma lineFold_entry_key_mem (names : List Str) (a k : Str)
    (hk : k ∈ recKeys (lineEntriesFor a)) :
    ∀ rec : UtilRecord, a ∈ names →
      k ∈ recKeys (names.foldl
        (fun rec a =>
          (lineEntriesFor a).foldl (fun r e => recInsert r e.1 e.2) rec)
        rec) := by
  induction names with
  | nil => intro _ h; simp at h
  | cons b rest ih =>
    intro rec hmem
    rcases List.mem_cons.mp hmem with rfl | hmem'
    · obtain ⟨e, he, hek⟩ := List.mem_map.mp hk
      apply lineFold_key_mem rest
      have := foldl_recInsert_mem_of_mem Prod.fst Prod.snd
        (lineEntriesFor a) rec e he
      rwa [hek] at this
    · exact ih _ hmem'

/-! ## Claim C10 -/

/-- C10: a declared layout with an empty or whitespace-only row makes the
empty string an area name (trimming then splitting yields a single empty
token, which differs from `.` and `..`), so the utility records gain
entries whose selectors are the bare prefixes `.grid-area-`,
`.row-start-` and `.col-span-` with an empty suffix. -/
theorem c10 (layouts : List (Str × AreaConfig)) (p : Str × AreaConfig)
    (hp : p ∈ layouts)
    (hr : ∃ r, r ∈ (normalizeAreaConfig p.2).rows ∧ jsTrim r = []) :
    [] ∈ allAreaNames layouts ∧
    str ".grid-area-" ∈ recKeys (gridAreaUtilities layouts) ∧
    str ".row-start-" ∈ recKeys (lineUtilities layouts) ∧
    str ".col-span-" ∈ recKeys (lineUtilities layouts) := by
  obtain ⟨r, hrmem, hrtrim⟩ := hr
  have hx : ([] : Str) ∈ extractAreaNames (normalizeAreaConfig p.2).rows := by
    have := (extract_mem_aux (normalizeAreaConfig p.2).rows [] ([] : Str)).mpr
      (Or.inr ⟨by decide, by decide, r, hrmem, by rw [hrtrim]; decide⟩)
    simpa [extractAreaNames] using this
  have hall : ([] : Str) ∈ allAreaNames layouts :=
    (allAreaNames_mem layouts []).mpr ⟨p, hp, hx⟩
  refine ⟨hall, ?_, ?_, ?_⟩
  · have h2 : gridAreaSelector [] ∈ recKeys (gridAreaUtilities layouts) := by
      unfold gridAreaUtilities
      apply foldl_recInsert_key_mem
      exact foldl_recInsert_mem_of_mem _ _ (allAreaNames layouts) _ [] hall
    simpa [gridAreaSelector] using h2
  · have h3 : str ".row-start-" ∈ recKeys (lineEntriesFor ([] : Str)) := by
      decide
    unfold lineUtilities lineUtilitiesOf
    exact lineFold_entry_key_mem (allAreaNames layouts) [] _ h3 [] hall
  · have h4 : str ".col-span-" ∈ recKeys (lineEntriesFor ([] : Str)) := by
      decide
    unfold lineUtilities lineUtilitiesOf
    exact lineFold_entry_key_mem (allAreaNames layouts) [] _ h4 [] hall

/-- C10, witness: a layout whose single row is two spaces produces the
empty area name and the bare-prefix selectors. -/
theorem c10_witness :
    [] ∈ allAreaNames [(str "L", AreaConfig.shorthand [str "  "])] ∧
    str ".grid-area-" ∈
      recKeys (gridAreaUtilities [(str "L", AreaConfig.shorthand [str "  "])]) ∧
    str ".row-start-" ∈
      recKeys (lineUtilities [(str "L", AreaConfig.shorthand [str "  "])]) ∧
    str ".col-span-" ∈
      recKeys (lineUtilities [(str "L", AreaConfig.shorthand [str "  "])]) :=
  c10 [(str "L", AreaConfig.shorthand [str "  "])]
    (str "L", AreaConfig.shorthand [str "  "]) (by decide)
    ⟨str "  ", by decide, by decide⟩

/-! ## Selector distinctness lemmas -/

lemma ne_append_of_idx (i : Nat) {p q a b : Str} (hp : i < p.length)
    (hq : i < q.length) (hne : p[i]? ≠ q[i]?) : p ++ a ≠ q ++ b := by
  intro h
  apply hne
  have h1 : (p ++ a)[i]? = p[i]? := by rw [List.getElem?_append, if_pos hp]
  have h2 : (q ++ b)[i]? = q[i]? := by rw [List.getElem?_append, if_pos hq]
  rw [← h1, ← h2, h]

lemma sixKeys_eq (a : Str) : recKeys (lineEntriesFor a) = sixSelectors a := rfl

lemma sixSelectors_nodup (a : Str) : (sixSelectors a).Nodup := by
  simp only [sixSelectors, List.nodup_cons, List.mem_cons, List.not_mem_nil,
    or_false, not_or, List.nodup_nil, and_true, not_false_iff]
  repeat' apply And.intro
  all_goals first
    | exact trivial
    | exact ne_append_of_idx 1 (by decide) (by decide) (by decide)
    | exact ne_append_of_idx 5 (by decide) (by decide) (by decide)
    | exact ne_append_of_idx 6 (by decide) (by decide) (by decide)

lemma sixSelectors_disjoint (a b : Str) (hab : a ≠ b) :
    ∀ k ∈ sixSelectors a, k ∉ sixSelectors b := by
  intro k hk
  simp only [sixSelectors, List.mem_cons, List.not_mem_nil, or_false] at hk ⊢
  push_neg
  rcases hk with rfl | rfl | rfl | rfl | rfl | rfl <;>
    refine ⟨?_, ?_, ?_, ?_, ?_, ?_⟩ <;>
    first
      | exact fun h => hab (List.append_cancel_left h)
      | exact ne_append_of_idx 1 (by decide) (by decide) (by decide)
      | exact ne_append_of_idx 5 (by decide) (by decide) (by decide)
      | exact ne_append_of_idx 6 (by decide) (by decide) (by decide)

/-! ## Line-record structure lemmas -/

lemma recKeys_append (r1 r2 : UtilRecord) :
    recKeys (r1 ++ r2) = recKeys r1 ++ recKeys r2 := by
  simp [recKeys]

lemma recKeys_cons (e : Str × Decl) (r : UtilRecord) :
    recKeys (e :: r) = e.1 :: recKeys r := rfl

lemma foldl_entries_append (ents : UtilRecord) :
    ∀ rec : UtilRecord, (∀ k ∈ recKeys ents, k ∉ recKeys rec) →
      (recKeys ents).Nodup →
      ents.foldl (fun r e => recInsert r e.1 e.2) rec = rec ++ ents := by
  induction ents with
  | nil => simp
  | cons e ents' ih =>
    intro rec hfresh hnd
    rw [recKeys_cons] at hnd
    have hnde := List.nodup_cons.mp hnd
    have he1 : e.1 ∉ recKeys rec := hfresh e.1 (by rw [recKeys_cons]; simp)
    have hstep : recInsert rec e.1 e.2 = rec ++ [e] := by
      unfold recInsert
      rw [if_neg he1]
    have hfresh' : ∀ k ∈ recKeys ents', k ∉ recKeys (rec ++ [e]) := by
      intro k hk
      rw [recKeys_append]
      intro hmem
      rcases List.mem_append.mp hmem with h1 | h1
      · exact hfresh k (by rw [recKeys_cons]; exact List.mem_cons_of_mem _ hk) h1
      · have hke : k = e.1 := by simpa [recKeys] using h1
        exact hnde.1 (hke ▸ hk)
    rw [List.foldl_cons, hstep, ih (rec ++ [e]) hfresh' hnde.2]
    simp

lemma concatEntries_cons (b : Str) (rest : List Str) :
    concatEntries (b :: rest) = lineEntriesFor b ++ concatEntries rest := rfl

lemma mem_concatEntries (names : List Str) (e : Str × Decl) :
    e ∈ concatEntries names ↔ ∃ b, b ∈ names ∧ e ∈ lineEntriesFor b := by
  induction names with
  | nil => simp [concatEntries]
  | cons b rest ih =>
    rw [concatEntries_cons]
    simp [List.mem_append, ih]

lemma lineFold_append (names : List Str) :
    ∀ rec : UtilRecord, names.Nodup →
      (∀ b ∈ names, ∀ k ∈ sixSelectors b, k ∉ recKeys rec) →
      names.foldl
        (fun rec a =>
          (lineEntriesFor a).foldl (fun r e => recInsert r e.1 e.2) rec) rec =
        rec ++ concatEntries names := by
  induction names with
  | nil => intro rec _ _; simp [concatEntries]
  | cons b rest ih =>
    intro rec hnd hfresh
    have hndb := List.nodup_cons.mp hnd
    have hstep : (lineEntriesFor b).foldl (fun r e => recInsert r e.1 e.2) rec =
        rec ++ lineEntriesFor b :=
      foldl_entries_append (lineEntriesFor b) rec
        (by rw [sixKeys_eq]; exact hfresh b (List.mem_cons_self ..))
        (by rw [sixKeys_eq]; exact sixSelectors_nodup b)
    have hfresh2 : ∀ c ∈ rest, ∀ k ∈ sixSelectors c,
        k ∉ recKeys (rec ++ lineEntriesFor b) := by
      intro c hc k hk
      rw [recKeys_append]
      intro hmem
      rcases List.mem_append.mp hmem with h1 | h1
      · exact hfresh c (List.mem_cons_of_mem _ hc) k hk h1
      · rw [sixKeys_eq] at h1
        have hcb : c ≠ b := by
          intro hcb
          exact hndb.1 (hcb ▸ hc)
        exact sixSelectors_disjoint c b hcb k hk h1
    rw [List.foldl_cons, hstep, ih (rec ++ lineEntriesFor b) hndb.2 hfresh2]
    rw [concatEntries_cons, List.append_assoc]

lemma filter_lineEntries_self (a : Str) :
    (lineEntriesFor a).filter (fun e => decide (e.1 ∈ sixSelectors a)) =
      lineEntriesFor a := by
  refine List.filter_eq_self.mpr ?_
  intro e he
  simp only [decide_eq_true_eq]
  rw [← sixKeys_eq]
  exact List.mem_map_of_mem Prod.fst he

lemma filter_lineEntries_other (a b : Str) (hab : b ≠ a) :
    (lineEntriesFor b).filter (fun e => decide (e.1 ∈ sixSelectors a)) = [] := by
  refine List.filter_eq_nil_iff.mpr ?_
  intro e he
  simp only [decide_eq_true_eq]
  have hmem : e.1 ∈ sixSelectors b := by
    rw [← sixKeys_eq]
    exact List.mem_map_of_mem Prod.fst he
  exact sixSelectors_disjoint b a hab e.1 hmem

lemma filter_concatEntries (a : Str) (names : List Str) :
    names.Nodup → a ∈ names →
      (concatEntries names).filter (fun e => decide (e.1 ∈ sixSelectors a)) =
        lineEntriesFor a := by
  induction names with
  | nil => intro _ h; simp at h
  | cons b rest ih =>
    intro hnd hmem
    have hndb := List.nodup_cons.mp hnd
    rw [concatEntries_cons, List.filter_append]
    rcases List.mem_cons.mp hmem with rfl | hmem'
    · rw [filter_lineEntries_self a]
      have hrest : (concatEntries rest).filter
          (fun e => decide (e.1 ∈ sixSelectors a)) = [] := by
        refine List.filter_eq_nil_iff.mpr ?_
        intro e he
        simp only [decide_eq_true_eq]
        obtain ⟨c, hc, hec⟩ := (mem_concatEntries rest e).mp he
        have hca : c ≠ a := by
          intro h
          exact hndb.1 (h ▸ hc)
        have hmem2 : e.1 ∈ sixSelectors c := by
          rw [← sixKeys_eq]
          exact List.mem_map_of_mem Prod.fst hec
        exact sixSelectors_disjoint c a hca e.1 hmem2
      rw [hrest, List.append_nil]
    · have hba : b ≠ a := by
        intro h
        exact hndb.1 (h ▸ hmem')
      rw [filter_lineEntries_other a b hba, List.nil_append]
      exact ih hndb.2 hmem'

/-! ## Claim C6 -/

/-- C6: for every discovered area name `a`, the line-utility record holds
exactly the six declarations `row-start-a ↦ grid-row-start: a-start`,
`row-end-a ↦ grid-row-end: a-end`, `row-span-a ↦ grid-row: a-start /
a-end`, and the three column equivalents — no more, no fewer. -/
theorem c6 (layouts : List (Str × AreaConfig)) (a : Str)
    (ha : a ∈ allAreaNames layouts) :
    (lineUtilities layouts).filter (fun e => decide (e.1 ∈ sixSelectors a)) =
      [(str ".row-start-" ++ a, [(str "grid-row-start", a ++ str "-start")]),
       (str ".row-end-" ++ a, [(str "grid-row-end", a ++ str "-end")]),
       (str ".row-span-" ++ a,
         [(str "grid-row", a ++ str "-start / " ++ (a ++ str "-end"))]),
       (str ".col-start-" ++ a, [(str "grid-column-start", a ++ str "-start")]),
       (str ".col-end-" ++ a, [(str "grid-column-end", a ++ str "-end")]),
       (str ".col-span-" ++ a,
         [(str "grid-column", a ++ str "-start / " ++ (a ++ str "-end"))])] := by
  have hnd := allAreaNames_nodup layouts
  unfold lineUtilities lineUtilitiesOf
  rw [lineFold_append (allAreaNames layouts) [] hnd
    (by intro b _ k _; simp [recKeys])]
  rw [List.nil_append]
  exact filter_concatEntries a (allAreaNames layouts) hnd ha

/-- C6, witness: the six line declarations for the discovered area name
`main`. -/
theorem c6_witness :
    (lineUtilities [(str "L", AreaConfig.shorthand [str "main side"])]).filter
        (fun e => decide (e.1 ∈ sixSelectors (str "main"))) =
      [(str ".row-start-" ++ str "main",
         [(str "grid-row-start", str "main" ++ str "-start")]),
       (str ".row-end-" ++ str "main",
         [(str "grid-row-end", str "main" ++ str "-end")]),
       (str ".row-span-" ++ str "main",
         [(str "grid-row", str "main" ++ str "-start / " ++
           (str "main" ++ str "-end"))]),
       (str ".col-start-" ++ str "main",
         [(str "grid-column-start", str "main" ++ str "-start")]),
       (str ".col-end-" ++ str "main",
         [(str "grid-column-end", str "main" ++ str "-end")]),
       (str ".col-span-" ++ str "main",
         [(str "grid-column", str "main" ++ str "-start / " ++
           (str "main" ++ str "-end"))])] :=
  c6 [(str "L", AreaConfig.shorthand [str "main side"])] (str "main")
    (by decide)

/-- C8, witness: a layout with rows provided and columns omitted carries
`grid-template-rows` for the provided value and the rows-membership iff is
satisfied there. -/
theorem c8_witness :
    (str "grid-template-rows", str "auto 1fr") ∈
        layoutStyles (GridTemplateArea.mk [str "a"] (some (str "auto 1fr")) none) ↔
      (GridTemplateArea.mk [str "a"] (some (str "auto 1fr")) none).gridTemplateRows =
          some (str "auto 1fr") ∧
        str "auto 1fr" ≠ ([] : Str) :=
  (c8_amended (GridTemplateArea.mk [str "a"] (some (str "auto 1fr")) none)
    (str "auto 1fr")).2.2.1
